import Mathlib

/-!
# History formatter (`cli/command/formatter/history.go`)

A shallow embedding of the history formatter of the Docker CLI and the
properties of its format resolver, its field accessors and its render loop.

Conventions of the embedding:

* a Go `string` that the code reads by characters (the templates, the
  provenance text, the comment) is a Lean `String`, read as its sequence of
  characters (`String.data`); these strings are taken to be valid UTF-8, so that
  `[]rune(s)` is `s.data`;
* a Go `string` that the code cuts by bytes (the identifier) is the list of its
  bytes, a `ByteString`; a string literal stands for its UTF-8 encoding;
* a Go `error` value is an `Option ε`, with `none` for `nil`;
* a method with a pointer receiver that updates the receiver returns the
  updated receiver next to its result;
* a Go function value that may have effects (the row formatter handed to the
  render loop) is a function on an explicit state `σ`.
-/

namespace Formatter

/-! ## Definitions -/

/-- The Go type `Format`, a named `string` holding a template. -/
abbrev Format := String

/-- Modelled from the spec: the constant `TableFormatKey` is declared in another
file of package `formatter`; section 4.1 names it the well-known "table" marker. -/
def TableFormatKey : String := "table"

/-- Modelled from the spec: the constant `defaultQuietFormat` is declared in
another file of package `formatter`; section 6 describes the quiet preset as the
template that emits only the identifier column. -/
def defaultQuietFormat : Format := "{{.ID}}"

/-- The constant `defaultHistoryTableFormat` of `history.go`. -/
def defaultHistoryTableFormat : Format :=
  "table {{.ID}}\t{{.CreatedSince}} ago\t{{.CreatedBy}}\t{{.Size}}\t{{.Comment}}"

/-- The constant `historyIDHeader` of `history.go`. -/
def historyIDHeader : String := "IMAGE"

/-- The constant `createdByHeader` of `history.go`. -/
def createdByHeader : String := "CREATED BY"

/-- The constant `commentHeader` of `history.go`. -/
def commentHeader : String := "COMMENT"

/-- The function `NewHistoryFormat` of `history.go`: the outer `switch` on
`source` has the single case `TableFormatKey`, whose inner `switch` returns the
quiet preset when `quiet` holds and the default table format otherwise; every
other `source` falls through to `return Format(source)`. -/
def NewHistoryFormat (source : String) (quiet : Bool) : Format :=
  if source = TableFormatKey then
    if quiet then defaultQuietFormat else defaultHistoryTableFormat
  else
    source

/-- The bytes of a Go `string`. -/
abbrev ByteString := List UInt8

/-- The Go string that a literal writes: the UTF-8 encoding of its characters. -/
def utf8 (s : String) : ByteString := s.data.flatMap String.utf8EncodeChar

/-- A string literal where a `ByteString` is expected stands for its UTF-8
encoding. -/
instance : Coe String ByteString := ⟨utf8⟩

/-- Modelled from the spec: the record type `image.HistoryResponseItem` is declared
in package `api/types/image`; section 6 lists its fields as identifier, creation
timestamp in seconds since the epoch, provenance text, byte size and comment. -/
structure HistoryResponseItem where
  Comment : String := ""
  Created : Int := 0
  CreatedBy : String := ""
  ID : ByteString := []
  Size : Int := 0
  deriving DecidableEq, Repr

/-- Modelled from the spec: the type `HeaderContext` is declared in another file of
package `formatter`; section 3 describes the header registry as an ordered
sequence of header strings. The Go zero value is the empty registry. -/
structure HeaderContext where
  header : List String := []
  deriving DecidableEq, Repr

/-- Modelled from the spec: the method `AddHeader` of `HeaderContext` is declared in
another file of package `formatter`; section 4.2 says that it appends the label
to the registry if it is not already present. -/
def HeaderContext.AddHeader (c : HeaderContext) (header : String) : HeaderContext :=
  if header ∈ c.header then c else { header := c.header ++ [header] }

/-- The struct `historyContext` of `history.go`: an embedded `HeaderContext`,
the flag `trunc` and the record `h`. -/
structure historyContext extends HeaderContext where
  trunc : Bool := false
  h : HistoryResponseItem := {}
  deriving DecidableEq, Repr

/-- The promoted method `AddHeader` on a `historyContext`: it updates the
embedded `HeaderContext` and nothing else. -/
def historyContext.AddHeader (c : historyContext) (header : String) : historyContext :=
  { c with toHeaderContext := c.toHeaderContext.AddHeader header }

/-- The Go standard library function `strings.IndexRune` for a rune below
`utf8.RuneSelf`, given by its byte: Go answers it with `strings.IndexByte`, the
index of the first byte equal to it, or `-1`, here `none`. -/
def IndexRune : ByteString → UInt8 → Option Nat
  | [], _ => none
  | c :: cs, r => if c = r then some 0 else (IndexRune cs r).map (· + 1)

/-- Modelled from the spec: the constant `shortLen` of package `pkg/stringid`, the
fixed length of a truncated identifier. -/
def shortLen : Nat := 12

/-- Modelled from the spec: the function `stringid.TruncateID` is declared in package
`pkg/stringid`; section 4.2 has the ID accessor return, under truncation, a
truncated prefix of the fixed length `shortLen`, and claim C17 makes precise what
is cut: the part of the identifier after its first ':' (the whole identifier
when it has none), to its first `shortLen` bytes when longer. The slices
`id[i+1:]` and `id[:shortLen]` are slices of bytes. -/
def TruncateID (id : ByteString) : ByteString :=
  let id : ByteString :=
    match IndexRune id (Char.toUInt8 ':') with
    | some i => id.drop (i + 1)
    | none => id
  if id.length > shortLen then id.take shortLen else id

/-- The Go standard library function `strings.Replace` on character sequences,
scanning left to right for non-overlapping occurrences of `old`. The first
argument is the number of replacements still allowed (negative: no limit), the
second the number of characters of a matched occurrence still to be skipped.
An empty `old` matches before every character and at the end. -/
def replaceFrom (old new : List Char) : Int → Nat → List Char → List Char
  | n, _, [] => if old = [] ∧ n ≠ 0 then new else []
  | n, skip + 1, _ :: cs => replaceFrom old new n skip cs
  | n, 0, c :: cs =>
    if n ≠ 0 ∧ old.isPrefixOf (c :: cs) then
      if old = [] then new ++ c :: replaceFrom old new (n - 1) 0 cs
      else new ++ replaceFrom old new (n - 1) (old.length - 1) cs
    else c :: replaceFrom old new n 0 cs

/-- The Go standard library function `strings.Replace(s, old, new, n)`. -/
def Replace (s old new : String) (n : Int) : String :=
  String.mk (replaceFrom old.data new.data n 0 s.data)

/-- Modelled from the spec: the function `stringutils.Ellipsis` is declared in
package `pkg/stringutils`; section 4.2 says that it collapses a text to at most
`maxlen` characters, replacing the remainder with the ellipsis marker "..."
when it truncates. A text of at most `maxlen` characters is returned as is; for
`maxlen` of 3 and lower there is no room for the marker. -/
def Ellipsis (s : String) (maxlen : Nat) : String :=
  let r := s.data
  if r.length ≤ maxlen then s
  else if maxlen ≤ 3 then String.mk (r.take maxlen)
  else String.mk (r.take (maxlen - 3) ++ "...".data)

/-- The method `ID` of `historyContext`: registers its header, then returns the
truncated identifier when `trunc` is set and the stored identifier otherwise. -/
def historyContext.ID (c : historyContext) : ByteString × historyContext :=
  let c := c.AddHeader historyIDHeader
  if c.trunc then (TruncateID c.h.ID, c) else (c.h.ID, c)

/-- The method `CreatedBy` of `historyContext`: registers its header, replaces
every tab of the provenance text by a space and, when `trunc` is set, shortens
the result with `Ellipsis` to 45 characters. -/
def historyContext.CreatedBy (c : historyContext) : String × historyContext :=
  let c := c.AddHeader createdByHeader
  let createdBy := Replace c.h.CreatedBy "\t" " " (-1)
  let createdBy := if c.trunc then Ellipsis createdBy 45 else createdBy
  (createdBy, c)

/-- The method `Comment` of `historyContext`: registers its header and returns
the stored comment. -/
def historyContext.Comment (c : historyContext) : String × historyContext :=
  let c := c.AddHeader commentHeader
  (c.h.Comment, c)

/-- Modelled from the spec: the struct `Context` is declared in another file of
package `formatter`; of its fields `history.go` reads `Trunc`, the truncation
option of section 3, next to the format the render was asked for. The output
sink and the buffers of a render are part of the state `σ` of the row formatter. -/
structure Context where
  Format : Format := ""
  Trunc : Bool := false
  deriving DecidableEq, Repr

/-- The closure `render` built by `HistoryWrite`: it ranges over `histories` in
order, builds for each record a new `historyContext` with the caller's `Trunc`
and that record, hands it to `format`, and returns the first error `format`
reports, or `nil` after the last record. The row formatter `format` acts on a
state `σ` (the sink it writes to) and reports an error or `nil`. -/
def HistoryWrite.render {σ ε : Type} (ctx : Context) (histories : List HistoryResponseItem)
    (format : historyContext → σ → Option ε × σ) (s : σ) : Option ε × σ :=
  match histories with
  | [] => (none, s)
  | history :: rest =>
    let historyCtx : historyContext := { trunc := ctx.Trunc, h := history }
    match format historyCtx s with
    | (some err, s') => (some err, s')
    | (none, s') => HistoryWrite.render ctx rest format s'

/-- The function `HistoryWrite` of `history.go`: it hands the closure `render` and
an empty `historyContext` to the method `Write` of the context, which is
declared in another file of package `formatter` and is a parameter here. -/
def HistoryWrite {σ ε : Type}
    (Write : Context → historyContext →
      ((historyContext → σ → Option ε × σ) → σ → Option ε × σ) → σ → Option ε × σ)
    (ctx : Context) (histories : List HistoryResponseItem) (s : σ) : Option ε × σ :=
  Write ctx {} (HistoryWrite.render ctx histories) s

/-- An observer for the calls of a row formatter: `traced format` behaves as
`format` on the state and appends to a log, kept next to the state, the adapter
it was called with and the error or `nil` that call reported. -/
def traced {σ ε : Type} (format : historyContext → σ → Option ε × σ)
    (c : historyContext) (st : σ × List (historyContext × Option ε)) :
    Option ε × (σ × List (historyContext × Option ε)) :=
  ((format c st.1).1, ((format c st.1).2, st.2 ++ [(c, (format c st.1).1)]))

/-- A row formatter for examples: it writes the identifier column of the record to
a sink of lines and reports no error. -/
def writeID (c : historyContext) (out : List ByteString) :
    Option String × List ByteString :=
  (none, out ++ [c.ID.1])

/-- A row formatter for examples: as `writeID`, except that it reports an error,
and writes nothing, on a record whose identifier is `bad`. -/
def writeIDUnless (bad : ByteString) (c : historyContext) (out : List ByteString) :
    Option String × List ByteString :=
  if c.h.ID = bad then (some "template: cannot render", out) else (none, out ++ [c.ID.1])

/-- Modelled from the spec: the constant `createdSinceHeader` is declared in another
file of package `formatter`; section 6 gives the label of the CreatedSince column
as `CREATED SINCE`. -/
def createdSinceHeader : String := "CREATED SINCE"

/-- Modelled from the spec: the constant `sizeHeader` is declared in another file of
package `formatter`; section 6 gives the label of the Size column as `SIZE`. -/
def sizeHeader : String := "SIZE"

/-- Modelled from the spec: the method `FullHeader` of `HeaderContext` is declared in
another file of package `formatter`; section 4.3 describes the header line as
the registered headers joined by tabs. -/
def HeaderContext.FullHeader (c : HeaderContext) : String :=
  "\t".intercalate c.header

/-- The conversion to the Go type `int64`, and the result of an `int64` operation
computed on unbounded integers: the value wrapped into the 64-bit signed range. -/
def int64 (x : Int) : Int :=
  (x + 9223372036854775808) % 18446744073709551616 - 9223372036854775808

/-- The Go type `time.Duration`: an `int64` count of nanoseconds. -/
abbrev Duration := Int

/-- The Go type `time.Time`, read as an instant: the seconds since January 1 of
year 1, an `int64`, and the nanoseconds within the second, from 0 to 999999999.
The location plays no part in a difference of instants. -/
structure Time where
  sec : Int := 0
  nsec : Int := 0
  deriving DecidableEq, Repr

/-- The Go constant `time.Second`. -/
def Second : Duration := 1000000000

/-- The largest `time.Duration`, the largest 64-bit signed integer. -/
def maxDuration : Duration := 2 ^ 63 - 1

/-- The smallest `time.Duration`, the smallest 64-bit signed integer. -/
def minDuration : Duration := -(2 ^ 63)

/-- The Go constant `unixToInternal`: the seconds from January 1 of year 1 to the
Unix epoch. -/
def unixToInternal : Int := 62135596800

/-- The Go standard library function `time.Unix(sec, nsec)`: it brings `nsec` into
the range of a second, carrying into `sec`, and adds the epoch offset to `sec`,
all in `int64`. -/
def Time.Unix (sec nsec : Int) : Time :=
  if nsec < 0 ∨ nsec ≥ 1000000000 then
    let n := Int.tdiv nsec 1000000000
    let sec := int64 (sec + n)
    let nsec := nsec - n * 1000000000
    if nsec < 0 then
      { sec := int64 (int64 (sec - 1) + unixToInternal), nsec := nsec + 1000000000 }
    else
      { sec := int64 (sec + unixToInternal), nsec := nsec }
  else
    { sec := int64 (sec + unixToInternal), nsec := nsec }

/-- The Go standard library method `Time.Add`: the instant `d` later, the seconds
in `int64`. -/
def Time.Add (t : Time) (d : Duration) : Time :=
  let sec := int64 (t.sec + Int.tdiv d 1000000000)
  let nsec := t.nsec + Int.tmod d 1000000000
  if nsec ≥ 1000000000 then { sec := int64 (sec + 1), nsec := nsec - 1000000000 }
  else if nsec < 0 then { sec := int64 (sec - 1), nsec := nsec + 1000000000 }
  else { sec := sec, nsec := nsec }

/-- The Go standard library method `Time.Equal`. -/
def Time.Equal (t u : Time) : Bool :=
  decide (t.sec = u.sec ∧ t.nsec = u.nsec)

/-- The Go standard library method `Time.Before`. -/
def Time.Before (t u : Time) : Bool :=
  decide (t.sec < u.sec ∨ (t.sec = u.sec ∧ t.nsec < u.nsec))

/-- The Go standard library method `Time.Sub`: the duration `t - u` computed in
`int64`, returned when adding it to `u` gives `t` back, and replaced by the
smallest or the largest duration when it does not, as `t` is before `u` or
not. -/
def Time.Sub (t u : Time) : Duration :=
  let d := int64 (int64 (int64 (t.sec - u.sec) * Second) + (t.nsec - u.nsec))
  if (u.Add d).Equal t then d
  else if t.Before u then minDuration
  else maxDuration

/-- Modelled from the spec: the function `units.HumanDuration` belongs to the
vendored library `go-units`, which is not among the sources; section 4.2 asks
for a coarse duration in approximate units with days, weeks, months and years
thresholds, such as "7 days". The library's `int(d.Seconds())`,
`int(d.Minutes())` and `int(d.Hours())` are the quotients of `d` by a second, a
minute and an hour, truncated towards zero. -/
def HumanDuration (d : Duration) : String :=
  let seconds := Int.tdiv d Second
  if seconds < 1 then "Less than a second"
  else if seconds = 1 then "1 second"
  else if seconds < 60 then toString seconds ++ " seconds"
  else
    let minutes := Int.tdiv d (60 * Second)
    if minutes = 1 then "About a minute"
    else if minutes < 60 then toString minutes ++ " minutes"
    else
      let hours := Int.tdiv d (60 * 60 * Second)
      if hours = 1 then "About an hour"
      else if hours < 48 then toString hours ++ " hours"
      else if hours < 24 * 7 * 2 then toString (Int.tdiv hours 24) ++ " days"
      else if hours < 24 * 30 * 2 then toString (Int.tdiv (Int.tdiv hours 24) 7) ++ " weeks"
      else if hours < 24 * 365 * 2 then
        toString (Int.tdiv (Int.tdiv hours 24) 30) ++ " months"
      else toString (Int.tdiv (Int.tdiv hours 24) 365) ++ " years"

/-- The method `CreatedSince` of `historyContext`: registers its header, reads the
creation timestamp as Unix seconds and returns the humanized duration from then
to now. The reading `now` of the clock, `time.Now().UTC()` in Go, is a
parameter. -/
def historyContext.CreatedSince (now : Time) (c : historyContext) : String × historyContext :=
  let c := c.AddHeader createdSinceHeader
  let createdAt := Time.Unix (int64 c.h.Created) 0
  (HumanDuration (Time.Sub now createdAt), c)

/-- The method `Size` of `historyContext`: registers its header and returns the
humanized byte count at precision 3. The humanizer, in Go
`units.HumanSizeWithPrecision` of the vendored library `go-units` applied to the
`float64` conversion of the byte count, is a parameter; `HumanSizeWithPrecision`
below is its model. -/
def historyContext.Size (humanSize : Int → Nat → String) (c : historyContext) :
    String × historyContext :=
  let c := c.AddHeader sizeHeader
  (humanSize c.h.Size 3, c)

/-- The table `decimapAbbrs` of the vendored library `go-units`: the abbreviations
of the decimal units, each 1000 times the one before. -/
def decimapAbbrs : List String := ["B", "kB", "MB", "GB", "TB", "PB", "EB", "ZB", "YB"]

/-- The loop of `getSizeAndUnit`: while the size `num / den` is at least `base`
and a larger unit is left (`fuel` counts them), divide it by `base` and go to the
next unit. It returns the final divisor and the index of the unit. -/
def getSizeAndUnit.loop (num : Int) (base : Nat) : Nat → Nat → Nat → Nat × Nat
  | 0, den, i => (den, i)
  | fuel + 1, den, i =>
    if num ≥ base * den then getSizeAndUnit.loop num base fuel (den * base) (i + 1)
    else (den, i)

/-- Modelled from the spec: the function `getSizeAndUnit` of the vendored library
`go-units`, which is not among the sources. It returns the divisor `den`, the
size in the chosen unit being `size / den`, and the abbreviation of the unit. -/
def getSizeAndUnit (size : Int) (base : Nat) (units : List String) : Nat × String :=
  let r := getSizeAndUnit.loop size base (units.length - 1) 1 0
  (r.1, units.getD r.2 "")

/-- The quotient `x / y` rounded to the nearest whole number, a tie to the even
one. -/
def roundHalfEven (x y : Nat) : Nat :=
  let q := x / y
  let r := x % y
  if 2 * r < y then q
  else if 2 * r > y then q + 1
  else if q % 2 = 0 then q
  else q + 1

/-- The least `k`, from the given one up, with `a * 10 ^ k ≥ den`: the place of
the first non-zero decimal of a fraction `a / den` below 1. -/
def firstDecimal (a den : Nat) : Nat → Nat → Nat
  | 0, k => k
  | fuel + 1, k => if a * 10 ^ k ≥ den then k else firstDecimal a den fuel (k + 1)

/-- A list of decimal digits without its trailing zeros. -/
def trimZeros (ds : List Char) : List Char :=
  (ds.reverse.dropWhile (· = '0')).reverse

/-- The decimal digits of the positive number `a / den` rounded to `prec`
significant digits, a tie to even, without trailing zeros, and the position `dp`
of the decimal point: the number is `0.d₁d₂… × 10 ^ dp`. This is what Go's
`strconv` computes for the formats `%e` and `%g` at a given precision. -/
def roundDigits (prec a den : Nat) : List Char × Int :=
  let dp : Int :=
    if a ≥ den then ((Nat.toDigits 10 (a / den)).length : Int)
    else 1 - (firstDecimal a den den 1 : Int)
  let sh : Int := (prec : Int) - dp
  let m := if sh ≥ 0 then roundHalfEven (a * 10 ^ sh.toNat) den
    else roundHalfEven a (den * 10 ^ (-sh).toNat)
  if m = 10 ^ prec then (trimZeros (Nat.toDigits 10 (10 ^ (prec - 1))), dp + 1)
  else (trimZeros (Nat.toDigits 10 m), dp)

/-- The function `fmtE` of Go's `strconv`: the digits `ds` with decimal point at
`dp` in the form `d.ddde±dd`, with `prec` digits after the point. -/
def fmtE (neg : Bool) (ds : List Char) (dp : Int) (prec : Nat) : List Char :=
  let sign := if neg then ['-'] else []
  let first := ds.headD '0'
  let m := min ds.length (prec + 1)
  let more :=
    if prec > 0 then
      '.' :: ((ds.take m).drop 1 ++ List.replicate (prec + 1 - max 1 m) '0')
    else []
  let exp : Int := if ds.length = 0 then 0 else dp - 1
  let esign := if exp < 0 then '-' else '+'
  let e := exp.natAbs
  let edigits :=
    if e < 10 then ['0', Nat.digitChar e]
    else if e < 100 then [Nat.digitChar (e / 10), Nat.digitChar (e % 10)]
    else [Nat.digitChar (e / 100), Nat.digitChar (e / 10 % 10), Nat.digitChar (e % 10)]
  sign ++ first :: more ++ 'e' :: esign :: edigits

/-- The function `fmtF` of Go's `strconv`: the digits `ds` with decimal point at
`dp` in the form `ddd.ddd`, with `prec` digits after the point. -/
def fmtF (neg : Bool) (ds : List Char) (dp : Int) (prec : Nat) : List Char :=
  let sign := if neg then ['-'] else []
  let whole :=
    if dp > 0 then
      ds.take (min ds.length dp.toNat) ++ List.replicate (dp.toNat - min ds.length dp.toNat) '0'
    else ['0']
  let fraction :=
    if prec > 0 then
      '.' :: (List.range prec).map (fun i =>
        if 0 ≤ dp + i ∧ dp + i < ds.length then ds.getD (dp + i).toNat '0' else '0')
    else []
  sign ++ whole ++ fraction

/-- The function `formatDigits` of Go's `strconv` for the format `%g` at a given
precision: the form `%e` when the decimal exponent is below -4 or not below the
precision (or the number of digits, when these are fewer and reach the decimal
point), the form `%f` otherwise, in both without trailing zeros. -/
def formatDigits (neg : Bool) (ds : List Char) (dp : Int) (prec : Nat) : String :=
  let nd := ds.length
  let eprec : Int := if prec > nd ∧ (nd : Int) ≥ dp then nd else prec
  let exp := dp - 1
  if exp < -4 ∨ exp ≥ eprec then
    String.mk (fmtE neg ds dp ((min prec nd) - 1))
  else
    String.mk (fmtF neg ds dp
      ((((if (prec : Int) > dp then nd else prec : Nat) : Int) - dp).toNat))

/-- The format `%.*g` of Go's `fmt` at precision `prec` for the number
`num / den`, computed exactly: the number is rounded to `prec` significant digits
(one, for a precision of 0) and written by `formatDigits`. Zero has no digits. -/
def fmtG (prec : Nat) (num : Int) (den : Nat) : String :=
  let prec := if prec = 0 then 1 else prec
  let digs : List Char × Int := if num = 0 then ([], 0) else roundDigits prec num.natAbs den
  formatDigits (decide (num < 0)) digs.1 digs.2 prec

/-- Modelled from the spec: the function `units.HumanSizeWithPrecision` belongs to the
vendored library `go-units`, which is not among the sources; section 4.2 has
the byte count humanized to three significant digits, as "183MB". The library
divides the size by 1000 while it is at least 1000 and a larger unit is left, and
prints the quotient with `%.*g` at the given precision, then the unit, with no
space. The library computes on `float64`; here the quotient is exact. -/
def HumanSizeWithPrecision (size : Int) (precision : Nat) : String :=
  let r := getSizeAndUnit size 1000 decimapAbbrs
  fmtG precision size r.1 ++ r.2

/-- The five accessors of `historyContext`, the columns a template can name. -/
inductive Accessor where
  | ID
  | CreatedSince
  | CreatedBy
  | Size
  | Comment
  deriving DecidableEq, Repr

/-- The header label an accessor registers. -/
def Accessor.header : Accessor → String
  | .ID => historyIDHeader
  | .CreatedSince => createdSinceHeader
  | .CreatedBy => createdByHeader
  | .Size => sizeHeader
  | .Comment => commentHeader

/-- One call of an accessor on an adapter: the bytes of the column text and the
adapter after the call. -/
def Accessor.call (now : Time) (humanSize : Int → Nat → String) :
    Accessor → historyContext → ByteString × historyContext
  | .ID, c => c.ID
  | .CreatedSince, c => (utf8 (c.CreatedSince now).1, (c.CreatedSince now).2)
  | .CreatedBy, c => (utf8 c.CreatedBy.1, c.CreatedBy.2)
  | .Size, c => (utf8 (c.Size humanSize).1, (c.Size humanSize).2)
  | .Comment, c => (utf8 c.Comment.1, c.Comment.2)

/-- The adapter after a sequence of accessor calls, made in order on it, as the
execution of a template makes them. -/
def callAll (now : Time) (humanSize : Int → Nat → String) :
    List Accessor → historyContext → historyContext
  | [], c => c
  | a :: rest, c => callAll now humanSize rest (a.call now humanSize c).2

/-! ## Theorems -/

/-- The promoted `AddHeader` leaves the flag `trunc` as it is. -/
theorem historyContext.AddHeader_trunc (c : historyContext) (header : String) :
    (c.AddHeader header).trunc = c.trunc := rfl

/-- The promoted `AddHeader` leaves the record as it is. -/
theorem historyContext.AddHeader_h (c : historyContext) (header : String) :
    (c.AddHeader header).h = c.h := rfl

/-- C1: for every `quiet`, `NewHistoryFormat "table" quiet` is the quiet preset
`defaultQuietFormat` when `quiet` is true and otherwise the default history table
format, which is exactly the template of the columns ID, CreatedSince followed by
" ago", CreatedBy, Size and Comment, in that order, joined by tabs after the
table marker. -/
theorem NewHistoryFormat_table (quiet : Bool) :
    NewHistoryFormat "table" quiet =
      (if quiet then defaultQuietFormat
       else "table {{.ID}}\t{{.CreatedSince}} ago\t{{.CreatedBy}}\t{{.Size}}\t{{.Comment}}")
    ∧ defaultHistoryTableFormat =
        "table {{.ID}}\t{{.CreatedSince}} ago\t{{.CreatedBy}}\t{{.Size}}\t{{.Comment}}"
    ∧ defaultHistoryTableFormat =
        "table " ++ "\t".intercalate
          ["{{.ID}}", "{{.CreatedSince}} ago", "{{.CreatedBy}}", "{{.Size}}", "{{.Comment}}"] := by
  refine ⟨?_, rfl, by decide⟩
  cases quiet <;> simp [NewHistoryFormat, TableFormatKey, defaultHistoryTableFormat]

/-- C2: a `source` different from the table marker "table" is returned unchanged
by `NewHistoryFormat`, whatever `quiet` is; the flag has no effect on it. -/
theorem NewHistoryFormat_literal (source : String) (quiet : Bool)
    (hsrc : source ≠ "table") :
    NewHistoryFormat source quiet = source
    ∧ NewHistoryFormat source true = NewHistoryFormat source false := by
  simp [NewHistoryFormat, TableFormatKey, hsrc]

/-- Witness for C2 at the empty template and at a template that only starts with
the table marker, both with `quiet` set. -/
theorem NewHistoryFormat_literal_witness :
    NewHistoryFormat "" true = "" ∧
      NewHistoryFormat "table {{.ID}}" true = "table {{.ID}}" :=
  ⟨(NewHistoryFormat_literal "" true (by decide)).1,
   (NewHistoryFormat_literal "table {{.ID}}" true (by decide)).1⟩

/-- With no limit on the number of replacements, replacing the tab by the space
rewrites every character on its own. -/
theorem replaceFrom_tab (cs : List Char) : ∀ n : Int, n < 0 →
    replaceFrom ['\t'] [' '] n 0 cs = cs.map (fun c => if c = '\t' then ' ' else c) := by
  induction cs with
  | nil => intro n _; simp [replaceFrom]
  | cons c cs ih =>
    intro n hn
    have hn0 : n ≠ 0 := by omega
    have hn1 : n - 1 < 0 := by omega
    by_cases hc : c = '\t'
    · subst hc
      simp [replaceFrom, hn0, ih (n - 1) hn1]
    · have hc2 : ¬ ('\t' = c) := fun h => hc h.symm
      simp [replaceFrom, hn0, hc, hc2, ih n hn]

/-- The characters of `strings.Replace(s, "\t", " ", -1)`. -/
theorem Replace_tab_data (s : String) :
    (Replace s "\t" " " (-1)).data = s.data.map (fun c => if c = '\t' then ' ' else c) := by
  have h := replaceFrom_tab s.data (-1) (by decide)
  simpa [Replace] using h

/-- Tab normalization keeps the number of characters. -/
theorem Replace_tab_length (s : String) : (Replace s "\t" " " (-1)).length = s.length := by
  show (Replace s "\t" " " (-1)).data.length = s.data.length
  rw [Replace_tab_data, List.length_map]

/-- Tab normalization leaves no tab. -/
theorem Replace_tab_no_tab (s : String) : '\t' ∉ (Replace s "\t" " " (-1)).data := by
  rw [Replace_tab_data, List.mem_map]
  rintro ⟨a, _, ha⟩
  by_cases hc : a = '\t'
  · rw [if_pos hc] at ha
    exact absurd ha (by decide)
  · rw [if_neg hc] at ha
    exact hc ha

/-- A text longer than `maxlen`, itself above 3, is cut to `maxlen - 3`
characters followed by the marker. -/
theorem Ellipsis_long (s : String) (n : Nat) (h3 : 3 < n) (hlen : n < s.length) :
    (Ellipsis s n).data = s.data.take (n - 3) ++ ['.', '.', '.'] := by
  have h1 : ¬ (s.length ≤ n) := by omega
  have h2 : ¬ (n ≤ 3) := by omega
  simp [Ellipsis, h1, h2]

/-- A text of at most `maxlen` characters is left as it is. -/
theorem Ellipsis_short (s : String) (n : Nat) (hlen : s.length ≤ n) :
    Ellipsis s n = s := by
  simp [Ellipsis, hlen]

/-- The characters of an `Ellipsis` result come from the text or the marker. -/
theorem Ellipsis_mem (s : String) (n : Nat) (c : Char) (hc : c ∈ (Ellipsis s n).data) :
    c ∈ s.data ∨ c = '.' := by
  unfold Ellipsis at hc
  simp only at hc
  split_ifs at hc with h1 h2
  · exact Or.inl hc
  · exact Or.inl (List.mem_of_mem_take hc)
  · rcases List.mem_append.mp hc with h | h
    · exact Or.inl (List.mem_of_mem_take h)
    · right
      simpa using h

/-- The value of `CreatedBy` without truncation. -/
theorem CreatedBy_full_eq (hc : HeaderContext) (h : HistoryResponseItem) :
    (historyContext.CreatedBy { toHeaderContext := hc, trunc := false, h := h }).1
      = Replace h.CreatedBy "\t" " " (-1) := rfl

/-- The value of `CreatedBy` under truncation. -/
theorem CreatedBy_trunc_eq (hc : HeaderContext) (h : HistoryResponseItem) :
    (historyContext.CreatedBy { toHeaderContext := hc, trunc := true, h := h }).1
      = Ellipsis (Replace h.CreatedBy "\t" " " (-1)) 45 := rfl

/-- C3: without truncation the ID accessor returns the stored identifier itself,
whatever the identifier and the state of the header registry. -/
theorem ID_full (hc : HeaderContext) (h : HistoryResponseItem) :
    (historyContext.ID { toHeaderContext := hc, trunc := false, h := h }).1 = h.ID := rfl

/-- C4, as stated, fails: for the identifier "sha256:abc" the truncated ID is
"abc", which is neither a prefix of the identifier nor 12 bytes long. -/
theorem ID_trunc_neither_prefix_nor_fixed :
    ¬ ((historyContext.ID { trunc := true, h := { ID := "sha256:abc" } }).1
          <+: utf8 "sha256:abc")
    ∧ ¬ ((historyContext.ID { trunc := true, h := { ID := "sha256:abc" } }).1.length = 12) := by
  have hv : (historyContext.ID { trunc := true, h := { ID := "sha256:abc" } }).1
      = utf8 "abc" := by
    decide
  rw [hv]
  constructor <;> decide

/-- C8: the Comment accessor returns the stored comment itself, for every comment,
every value of `trunc` and every state of the header registry. -/
theorem Comment_verbatim (hc : HeaderContext) (trunc : Bool) (h : HistoryResponseItem) :
    (historyContext.Comment { toHeaderContext := hc, trunc := trunc, h := h }).1 = h.Comment :=
  rfl

/-- A byte that does not occur has no index. -/
theorem IndexRune_of_not_mem (r : UInt8) (cs : ByteString) (hr : r ∉ cs) :
    IndexRune cs r = none := by
  induction cs with
  | nil => rfl
  | cons c cs ih =>
    have hne : ¬ (c = r) := fun e => hr (e ▸ List.mem_cons_self c cs)
    have hcs : r ∉ cs := fun m => hr (List.mem_cons_of_mem c m)
    simp [IndexRune, hne, ih hcs]

/-- The index of the first occurrence of a byte is the length of the part before
it. -/
theorem IndexRune_first (r : UInt8) (pre rest : ByteString) (hr : r ∉ pre) :
    IndexRune (pre ++ r :: rest) r = some pre.length := by
  induction pre with
  | nil => simp [IndexRune]
  | cons c pre ih =>
    have hne : ¬ (c = r) := fun e => hr (e ▸ List.mem_cons_self c pre)
    have hpre : r ∉ pre := fun m => hr (List.mem_cons_of_mem c m)
    simp [IndexRune, hne, ih hpre]

/-- Cutting a list longer than `n` to `n` elements and keeping a shorter one is
taking its first `n` elements. -/
theorem cut_eq_take {α : Type} (n : Nat) (l : List α) :
    (if l.length > n then l.take n else l) = l.take n := by
  split_ifs with hl
  · rfl
  · exact (List.take_of_length_le (by omega)).symm

/-- The truncation of an identifier without ':' is its first `shortLen` bytes. -/
theorem TruncateID_no_colon (id : ByteString) (hid : Char.toUInt8 ':' ∉ id) :
    TruncateID id = id.take shortLen := by
  simp only [TruncateID, IndexRune_of_not_mem _ id hid, cut_eq_take]

/-- The truncation of an identifier with a ':' is the first `shortLen` bytes of
what follows the first ':'. -/
theorem TruncateID_colon (id pre rest : ByteString)
    (hid : id = pre ++ Char.toUInt8 ':' :: rest) (hpre : Char.toUInt8 ':' ∉ pre) :
    TruncateID id = rest.take shortLen := by
  simp only [TruncateID, hid, IndexRune_first _ pre rest hpre, cut_eq_take]
  simp

/-- A truncated identifier has at most `shortLen` bytes. -/
theorem TruncateID_length_le (id : ByteString) : (TruncateID id).length ≤ shortLen := by
  simp only [TruncateID, cut_eq_take, List.length_take]
  exact Nat.min_le_left _ _

/-- The value of `ID` under truncation. -/
theorem ID_trunc_eq (hc : HeaderContext) (h : HistoryResponseItem) :
    (historyContext.ID { toHeaderContext := hc, trunc := true, h := h }).1 = TruncateID h.ID :=
  rfl

/-- C4, amended: under truncation the ID accessor returns at most 12 bytes; for
an identifier without ':' these are its first 12 bytes (all of them when it has
fewer), hence a prefix of the identifier; for an identifier with a ':' they are
the first 12 bytes of what follows its first ':'; and a second call on the same
adapter returns the same string. -/
theorem ID_trunc_at_most_shortLen (hc : HeaderContext) (h : HistoryResponseItem) :
    (historyContext.ID { toHeaderContext := hc, trunc := true, h := h }).1.length ≤ 12
    ∧ (Char.toUInt8 ':' ∉ h.ID →
        (historyContext.ID { toHeaderContext := hc, trunc := true, h := h }).1
            = h.ID.take 12
        ∧ (historyContext.ID { toHeaderContext := hc, trunc := true, h := h }).1
            <+: h.ID)
    ∧ (∀ pre rest : ByteString, h.ID = pre ++ Char.toUInt8 ':' :: rest →
        Char.toUInt8 ':' ∉ pre →
        (historyContext.ID { toHeaderContext := hc, trunc := true, h := h }).1
            = rest.take 12)
    ∧ (historyContext.ID
          (historyContext.ID { toHeaderContext := hc, trunc := true, h := h }).2).1
        = (historyContext.ID { toHeaderContext := hc, trunc := true, h := h }).1 := by
  rw [ID_trunc_eq]
  refine ⟨TruncateID_length_le h.ID, ?_, ?_, rfl⟩
  · intro hid
    have e := TruncateID_no_colon h.ID hid
    refine ⟨e, ?_⟩
    rw [e]
    exact List.take_prefix _ _
  · intro pre rest hid hpre
    exact TruncateID_colon h.ID pre rest hid hpre

/-- C5: without truncation the CreatedBy accessor returns the provenance text with
every tab replaced by one space and nothing else changed: the result has no tab,
has as many characters as the text, and at every position carries a space where
the text has a tab and the character of the text otherwise. Under truncation the
result has no tab either. -/
theorem CreatedBy_tabs (hc : HeaderContext) (h : HistoryResponseItem) :
    '\t' ∉ (historyContext.CreatedBy { toHeaderContext := hc, trunc := false, h := h }).1.data
    ∧ (historyContext.CreatedBy { toHeaderContext := hc, trunc := false, h := h }).1.length
        = h.CreatedBy.length
    ∧ (∀ (i : Nat) (c : Char), h.CreatedBy.data[i]? = some c →
        (historyContext.CreatedBy { toHeaderContext := hc, trunc := false, h := h }).1.data[i]?
          = some (if c = '\t' then ' ' else c))
    ∧ '\t' ∉ (historyContext.CreatedBy { toHeaderContext := hc, trunc := true, h := h }).1.data := by
  rw [CreatedBy_full_eq, CreatedBy_trunc_eq]
  refine ⟨Replace_tab_no_tab _, Replace_tab_length _, ?_, ?_⟩
  · intro i c hi
    rw [Replace_tab_data, List.getElem?_map, hi]
    rfl
  · intro hmem
    rcases Ellipsis_mem _ _ _ hmem with hm | hm
    · exact Replace_tab_no_tab _ hm
    · exact absurd hm (by decide)

/-- The characters of the truncated `CreatedBy` value of a text longer than 45
characters: the first 42 characters of the tab-normalized text, then the marker. -/
theorem CreatedBy_trunc_data (hc : HeaderContext) (h : HistoryResponseItem)
    (hlen : 45 < h.CreatedBy.length) :
    (historyContext.CreatedBy { toHeaderContext := hc, trunc := true, h := h }).1.data
      = (Replace h.CreatedBy "\t" " " (-1)).data.take 42 ++ ['.', '.', '.'] := by
  rw [CreatedBy_trunc_eq]
  exact Ellipsis_long _ 45 (by decide) (by rw [Replace_tab_length]; exact hlen)

/-- C6: under truncation, for a provenance text longer than 45 characters, the
CreatedBy accessor returns exactly 45 characters, ending with the marker "...",
whose first 42 characters are the first 42 characters of the tab-normalized text;
it is `Ellipsis` of the tab-normalized text at 45. -/
theorem CreatedBy_trunc_long (hc : HeaderContext) (h : HistoryResponseItem)
    (hlen : 45 < h.CreatedBy.length) :
    (historyContext.CreatedBy { toHeaderContext := hc, trunc := true, h := h }).1.length = 45
    ∧ "...".data <:+
        (historyContext.CreatedBy { toHeaderContext := hc, trunc := true, h := h }).1.data
    ∧ (historyContext.CreatedBy { toHeaderContext := hc, trunc := true, h := h }).1.data.take 42
        = (historyContext.CreatedBy { toHeaderContext := hc, trunc := false, h := h }).1.data.take 42
    ∧ (historyContext.CreatedBy { toHeaderContext := hc, trunc := true, h := h }).1
        = Ellipsis
            (historyContext.CreatedBy { toHeaderContext := hc, trunc := false, h := h }).1 45 := by
  have hd := CreatedBy_trunc_data hc h hlen
  have hn : 42 ≤ (Replace h.CreatedBy "\t" " " (-1)).data.length := by
    have := Replace_tab_length h.CreatedBy
    have e : (Replace h.CreatedBy "\t" " " (-1)).data.length = h.CreatedBy.length := this
    omega
  have ht : ((Replace h.CreatedBy "\t" " " (-1)).data.take 42).length = 42 := by
    rw [List.length_take]
    exact Nat.min_eq_left hn
  refine ⟨?_, ?_, ?_, rfl⟩
  · show (historyContext.CreatedBy
        { toHeaderContext := hc, trunc := true, h := h }).1.data.length = 45
    rw [hd, List.length_append, ht]
    rfl
  · rw [hd]
    exact List.suffix_append _ _
  · rw [hd, CreatedBy_full_eq, List.take_append_of_le_length (by omega)]
    rw [List.take_take]
    rfl

/-- Witness for C6 at a provenance text of 69 characters with two tabs. -/
theorem CreatedBy_trunc_long_witness :
    45 < ("RUN apt-get update\t&& apt-get install -y nginx\t&& rm -rf /var/lib/apt" : String).length
    ∧ (historyContext.CreatedBy
        { trunc := true,
          h := { CreatedBy :=
            "RUN apt-get update\t&& apt-get install -y nginx\t&& rm -rf /var/lib/apt" } }).1
      = "RUN apt-get update && apt-get install -y n..." :=
  ⟨by decide,
   ((CreatedBy_trunc_long {}
      { CreatedBy := "RUN apt-get update\t&& apt-get install -y nginx\t&& rm -rf /var/lib/apt" }
      (by decide)).2.2.2).trans (by decide)⟩

/-- C7, as stated, fails: for a provenance text of 46 letters the truncated
CreatedBy value ends with the marker "..." and is no prefix of the untruncated
value. -/
theorem CreatedBy_trunc_no_prefix_of_full :
    45 < ("aaaaaaaaaaaaaaaaaaaaaaaaaaaaaaaaaaaaaaaaaaaaaa" : String).length
    ∧ ¬ ((historyContext.CreatedBy
            { trunc := true,
              h := { CreatedBy := "aaaaaaaaaaaaaaaaaaaaaaaaaaaaaaaaaaaaaaaaaaaaaa" } }).1.data
          <+: (historyContext.CreatedBy
            { trunc := false,
              h := { CreatedBy := "aaaaaaaaaaaaaaaaaaaaaaaaaaaaaaaaaaaaaaaaaaaaaa" } }).1.data) := by
  refine ⟨by decide, ?_⟩
  have h1 : (historyContext.CreatedBy
      { trunc := true,
        h := { CreatedBy := "aaaaaaaaaaaaaaaaaaaaaaaaaaaaaaaaaaaaaaaaaaaaaa" } }).1
      = "aaaaaaaaaaaaaaaaaaaaaaaaaaaaaaaaaaaaaaaaaa..." := by decide
  have h2 : (historyContext.CreatedBy
      { trunc := false,
        h := { CreatedBy := "aaaaaaaaaaaaaaaaaaaaaaaaaaaaaaaaaaaaaaaaaaaaaa" } }).1
      = "aaaaaaaaaaaaaaaaaaaaaaaaaaaaaaaaaaaaaaaaaaaaaa" := by decide
  rw [h1, h2]
  decide

/-- C7, amended: under truncation, for a provenance text longer than 45
characters, the returned string is its own first 42 characters followed by the
marker "...", and these 42 characters are a prefix of the untruncated value. -/
theorem CreatedBy_trunc_prefix_of_full (hc : HeaderContext) (h : HistoryResponseItem)
    (hlen : 45 < h.CreatedBy.length) :
    (historyContext.CreatedBy { toHeaderContext := hc, trunc := true, h := h }).1.data
      = (historyContext.CreatedBy
          { toHeaderContext := hc, trunc := true, h := h }).1.data.take 42 ++ "...".data
    ∧ (historyContext.CreatedBy { toHeaderContext := hc, trunc := true, h := h }).1.data.take 42
        <+: (historyContext.CreatedBy
              { toHeaderContext := hc, trunc := false, h := h }).1.data := by
  have hd := CreatedBy_trunc_data hc h hlen
  have hn : 42 ≤ (Replace h.CreatedBy "\t" " " (-1)).data.length := by
    have e : (Replace h.CreatedBy "\t" " " (-1)).data.length = h.CreatedBy.length :=
      Replace_tab_length h.CreatedBy
    omega
  have ht : ((Replace h.CreatedBy "\t" " " (-1)).data.take 42).length = 42 := by
    rw [List.length_take]
    exact Nat.min_eq_left hn
  have h42 : (historyContext.CreatedBy
        { toHeaderContext := hc, trunc := true, h := h }).1.data.take 42
      = (Replace h.CreatedBy "\t" " " (-1)).data.take 42 := by
    rw [hd, List.take_append_of_le_length (by omega), List.take_take]
    rfl
  refine ⟨?_, ?_⟩
  · rw [h42]
    exact hd
  · rw [h42, CreatedBy_full_eq]
    exact List.take_prefix _ _

/-- Witness for C7, amended, at a provenance text of 46 letters. -/
theorem CreatedBy_trunc_prefix_of_full_witness :
    45 < ("aaaaaaaaaaaaaaaaaaaaaaaaaaaaaaaaaaaaaaaaaaaaaa" : String).length
    ∧ (historyContext.CreatedBy
        { trunc := true,
          h := { CreatedBy := "aaaaaaaaaaaaaaaaaaaaaaaaaaaaaaaaaaaaaaaaaaaaaa" } }).1.data.take 42
      <+: (historyContext.CreatedBy
        { trunc := false,
          h := { CreatedBy := "aaaaaaaaaaaaaaaaaaaaaaaaaaaaaaaaaaaaaaaaaaaaaa" } }).1.data :=
  ⟨by decide,
   (CreatedBy_trunc_prefix_of_full {}
      { CreatedBy := "aaaaaaaaaaaaaaaaaaaaaaaaaaaaaaaaaaaaaaaaaaaaaa" } (by decide)).2⟩


/-- The log of a traced run of the render loop: either the loop reports `nil`
and the log grew by one successful call per record, in order, or the records
split around a first failing one, the loop reports its error, and the log grew
by the successful calls before it and the failing call. -/
theorem render_traced_log {σ ε : Type} (ctx : Context)
    (format : historyContext → σ → Option ε × σ) (histories : List HistoryResponseItem) :
    ∀ (s : σ) (log : List (historyContext × Option ε)),
      ((HistoryWrite.render ctx histories (traced format) (s, log)).1 = none
        ∧ (HistoryWrite.render ctx histories (traced format) (s, log)).2.2
            = log ++ histories.map
                (fun h => (({ trunc := ctx.Trunc, h := h } : historyContext), none)))
      ∨ ∃ (pre : List HistoryResponseItem) (h : HistoryResponseItem)
          (post : List HistoryResponseItem) (e : ε),
          histories = pre ++ h :: post
          ∧ (HistoryWrite.render ctx histories (traced format) (s, log)).1 = some e
          ∧ (HistoryWrite.render ctx histories (traced format) (s, log)).2.2
              = log ++ pre.map
                  (fun h => (({ trunc := ctx.Trunc, h := h } : historyContext), none))
                ++ [(({ trunc := ctx.Trunc, h := h } : historyContext), some e)] := by
  induction histories with
  | nil => intro s log; left; simp [HistoryWrite.render]
  | cons h0 rest ih =>
    intro s log
    cases hf : (format { trunc := ctx.Trunc, h := h0 } s).1 with
    | some e =>
      right
      refine ⟨[], h0, rest, e, rfl, ?_, ?_⟩
      · simp [HistoryWrite.render, traced, hf]
      · simp [HistoryWrite.render, traced, hf]
    | none =>
      have hstep : HistoryWrite.render ctx (h0 :: rest) (traced format) (s, log)
          = HistoryWrite.render ctx rest (traced format)
              ((format { trunc := ctx.Trunc, h := h0 } s).2,
               log ++ [(({ trunc := ctx.Trunc, h := h0 } : historyContext), none)]) := by
        simp [HistoryWrite.render, traced, hf]
      rw [hstep]
      rcases ih (format { trunc := ctx.Trunc, h := h0 } s).2
          (log ++ [(({ trunc := ctx.Trunc, h := h0 } : historyContext), none)]) with
        ⟨h1, h2⟩ | ⟨pre, h, post, e, h1, h2, h3⟩
      · left
        refine ⟨h1, ?_⟩
        rw [h2]
        simp
      · right
        refine ⟨h0 :: pre, h, post, e, by rw [h1]; rfl, h2, ?_⟩
        rw [h3]
        simp

/-- Tracing does not change what the render loop reports nor the state it
leaves. -/
theorem render_traced_erase {σ ε : Type} (ctx : Context)
    (format : historyContext → σ → Option ε × σ) (histories : List HistoryResponseItem) :
    ∀ (s : σ) (log : List (historyContext × Option ε)),
      (HistoryWrite.render ctx histories (traced format) (s, log)).1
          = (HistoryWrite.render ctx histories format s).1
      ∧ (HistoryWrite.render ctx histories (traced format) (s, log)).2.1
          = (HistoryWrite.render ctx histories format s).2 := by
  induction histories with
  | nil => intro s log; simp [HistoryWrite.render]
  | cons h0 rest ih =>
    intro s log
    rcases hf : format { trunc := ctx.Trunc, h := h0 } s with ⟨_ | e, s1⟩
    · have hstep := ih s1 (log ++ [(({ trunc := ctx.Trunc, h := h0 } : historyContext), none)])
      simpa [HistoryWrite.render, traced, hf] using hstep
    · simp [HistoryWrite.render, traced, hf]

/-- A traced run over records of which the first failing one is `h`: the loop
reports the error of `h`, leaves the state of that call, and has logged the
successful calls before `h` and the failing call, nothing after it. -/
theorem render_traced_fail_at {σ ε : Type} (ctx : Context)
    (format : historyContext → σ → Option ε × σ) (h : HistoryResponseItem)
    (post : List HistoryResponseItem) (s1 s2 : σ) (e : ε)
    (hfail : format { trunc := ctx.Trunc, h := h } s1 = (some e, s2))
    (pre : List HistoryResponseItem) :
    ∀ (s : σ) (log : List (historyContext × Option ε)),
      HistoryWrite.render ctx pre format s = (none, s1) →
      HistoryWrite.render ctx (pre ++ h :: post) (traced format) (s, log)
        = (some e, (s2,
            log ++ pre.map (fun h => (({ trunc := ctx.Trunc, h := h } : historyContext), none))
              ++ [(({ trunc := ctx.Trunc, h := h } : historyContext), some e)])) := by
  induction pre with
  | nil =>
    intro s log hpre
    have hs : s = s1 := by simpa [HistoryWrite.render] using hpre
    subst hs
    simp [HistoryWrite.render, traced, hfail]
  | cons p pre ih =>
    intro s log hpre
    rcases hf : format { trunc := ctx.Trunc, h := p } s with ⟨_ | e0, s0⟩
    · have hrest : HistoryWrite.render ctx pre format s0 = (none, s1) := by
        simpa [HistoryWrite.render, hf] using hpre
      have hstep := ih s0
        (log ++ [(({ trunc := ctx.Trunc, h := p } : historyContext), none)]) hrest
      simpa [HistoryWrite.render, traced, hf] using hstep
    · simp [HistoryWrite.render, hf] at hpre

/-- C9: when no call of the row formatter fails, the render loop built by
`HistoryWrite` reports no error and has called the formatter exactly once per
record, in input order, each time with a new adapter that carries the caller's
`Trunc`, that record and an empty header registry, so that the records seen are
the input sequence; for the empty sequence the formatter is not called. -/
theorem render_calls_every_record {σ ε : Type} (ctx : Context)
    (format : historyContext → σ → Option ε × σ) (histories : List HistoryResponseItem)
    (s : σ)
    (hok : ∀ x ∈ (HistoryWrite.render ctx histories (traced format) (s, [])).2.2,
      x.2 = none) :
    (HistoryWrite.render ctx histories (traced format) (s, [])).2.2
        = histories.map
            (fun h => (({ header := [], trunc := ctx.Trunc, h := h } : historyContext), none))
    ∧ (HistoryWrite.render ctx histories (traced format) (s, [])).2.2.map (fun x => x.1.h)
        = histories
    ∧ (HistoryWrite.render ctx histories format s).1 = none
    ∧ (HistoryWrite.render ctx [] (traced format) (s, [])).2.2 = [] := by
  have hlog : (HistoryWrite.render ctx histories (traced format) (s, [])).1 = none
      ∧ (HistoryWrite.render ctx histories (traced format) (s, [])).2.2
        = histories.map
            (fun h => (({ header := [], trunc := ctx.Trunc, h := h } : historyContext), none)) := by
    rcases render_traced_log ctx format histories s [] with
      ⟨h1, h2⟩ | ⟨pre, h, post, e, _, _, h3⟩
    · exact ⟨h1, by simpa using h2⟩
    · have hmem : (({ trunc := ctx.Trunc, h := h } : historyContext), some e)
          ∈ (HistoryWrite.render ctx histories (traced format) (s, [])).2.2 := by
        rw [h3]
        simp
      exact absurd (hok _ hmem) (by simp)
  refine ⟨hlog.2, ?_, ?_, rfl⟩
  · rw [hlog.2, List.map_map]
    exact List.map_id _
  · rw [← (render_traced_erase ctx format histories s []).1]
    exact hlog.1

/-- Witness for C9 at two records and the formatter `writeID`, which never
fails. -/
theorem render_calls_every_record_witness :
    (HistoryWrite.render { Trunc := true } [{ ID := "a" }, { ID := "b" }]
        (traced writeID) ([], [])).2.2.map (fun x => x.1.h)
      = [{ ID := "a" }, { ID := "b" }] :=
  (render_calls_every_record { Trunc := true } writeID [{ ID := "a" }, { ID := "b" }] []
    (by decide)).2.1

/-- C10: the render loop built by `HistoryWrite` reports an error exactly when
some call of the row formatter fails. When the formatter fails on a record after
succeeding on all records before it, the loop reports exactly that error, having
called the formatter once on each earlier record and on the failing one and on no
later record; and whenever the loop reports an error, the calls it made are of
this shape. -/
theorem render_first_error {σ ε : Type} (ctx : Context)
    (format : historyContext → σ → Option ε × σ) (histories : List HistoryResponseItem)
    (s : σ) :
    ((HistoryWrite.render ctx histories (traced format) (s, [])).1 ≠ none
        ↔ ∃ x ∈ (HistoryWrite.render ctx histories (traced format) (s, [])).2.2, x.2 ≠ none)
    ∧ (∀ (pre : List HistoryResponseItem) (h : HistoryResponseItem)
          (post : List HistoryResponseItem) (s1 s2 : σ) (e : ε),
        histories = pre ++ h :: post →
        HistoryWrite.render ctx pre format s = (none, s1) →
        format { header := [], trunc := ctx.Trunc, h := h } s1 = (some e, s2) →
        HistoryWrite.render ctx histories format s = (some e, s2)
        ∧ (HistoryWrite.render ctx histories (traced format) (s, [])).2.2
            = pre.map
                (fun h => (({ header := [], trunc := ctx.Trunc, h := h } : historyContext), none))
              ++ [(({ header := [], trunc := ctx.Trunc, h := h } : historyContext), some e)])
    ∧ (∀ e : ε, (HistoryWrite.render ctx histories format s).1 = some e →
        ∃ (pre : List HistoryResponseItem) (h : HistoryResponseItem)
          (post : List HistoryResponseItem),
          histories = pre ++ h :: post
          ∧ (HistoryWrite.render ctx histories (traced format) (s, [])).2.2
            = pre.map
                (fun h => (({ header := [], trunc := ctx.Trunc, h := h } : historyContext), none))
              ++ [(({ header := [], trunc := ctx.Trunc, h := h } : historyContext), some e)]) := by
  refine ⟨?_, ?_, ?_⟩
  · rcases render_traced_log ctx format histories s [] with
      ⟨h1, h2⟩ | ⟨pre, h, post, e, _, h2, h3⟩
    · constructor
      · intro hne
        exact absurd h1 hne
      · rintro ⟨x, hx, hxe⟩
        rw [h2] at hx
        simp only [List.nil_append, List.mem_map] at hx
        rcases hx with ⟨a, _, rfl⟩
        exact absurd rfl hxe
    · constructor
      · intro _
        refine ⟨(({ trunc := ctx.Trunc, h := h } : historyContext), some e), ?_, by simp⟩
        rw [h3]
        simp
      · intro _
        rw [h2]
        simp
  · intro pre h post s1 s2 e hsplit hpre hfail
    have ht := render_traced_fail_at ctx format h post s1 s2 e hfail pre s [] hpre
    rw [← hsplit] at ht
    have he := render_traced_erase ctx format histories s []
    rw [ht] at he
    refine ⟨?_, by rw [ht]; simp⟩
    exact Prod.ext he.1.symm he.2.symm
  · intro e he
    rw [← (render_traced_erase ctx format histories s []).1] at he
    rcases render_traced_log ctx format histories s [] with
      ⟨h1, _⟩ | ⟨pre, h, post, e1, hsplit, h2, h3⟩
    · rw [h1] at he
      exact absurd he (by simp)
    · rw [h2] at he
      have hee : e1 = e := Option.some.inj he
      subst hee
      exact ⟨pre, h, post, hsplit, by simpa using h3⟩

/-- Witness for C10 at three records of which the formatter `writeIDUnless "b"`
fails on the second: the loop reports that error after one written line. -/
theorem render_first_error_witness :
    HistoryWrite.render {} [{ ID := "a" }, { ID := "b" }, { ID := "c" }] (writeIDUnless "b") []
      = (some "template: cannot render", [utf8 "a"]) :=
  ((render_first_error {} (writeIDUnless "b") [{ ID := "a" }, { ID := "b" }, { ID := "c" }] []).2.1
    [{ ID := "a" }] { ID := "b" } [{ ID := "c" }] ["a"] ["a"] "template: cannot render"
    rfl (by decide) (by decide)).1


/-- Every accessor leaves the adapter as it was, but for its own label added to
the header registry. -/
theorem Accessor.call_snd (now : Time) (humanSize : Int → Nat → String) (a : Accessor)
    (c : historyContext) : (a.call now humanSize c).2 = c.AddHeader a.header := by
  cases a
  · simp only [Accessor.call, historyContext.ID, Accessor.header]
    split <;> rfl
  · rfl
  · rfl
  · rfl
  · rfl

/-- The header registry after a sequence of accessor calls: the labels are added
one after the other. -/
theorem callAll_header (now : Time) (humanSize : Int → Nat → String) (calls : List Accessor) :
    ∀ c : historyContext,
      (callAll now humanSize calls c).toHeaderContext
        = (calls.map Accessor.header).foldl HeaderContext.AddHeader c.toHeaderContext := by
  induction calls with
  | nil => intro c; rfl
  | cons a rest ih =>
    intro c
    simp only [callAll, List.map_cons, List.foldl_cons]
    rw [ih, Accessor.call_snd]
    rfl

/-- Adding a label keeps a registry free of repetitions. -/
theorem AddHeader_nodup (hc : HeaderContext) (label : String) (hnd : hc.header.Nodup) :
    (hc.AddHeader label).header.Nodup := by
  unfold HeaderContext.AddHeader
  split_ifs with hmem
  · exact hnd
  · exact List.Nodup.append hnd (List.nodup_singleton label) (by simpa using hmem)

/-- Adding labels one after the other keeps a registry free of repetitions. -/
theorem foldl_AddHeader_nodup (labels : List String) :
    ∀ hc : HeaderContext, hc.header.Nodup →
      (labels.foldl HeaderContext.AddHeader hc).header.Nodup := by
  induction labels with
  | nil => intro hc hnd; exact hnd
  | cons l rest ih =>
    intro hc hnd
    exact ih _ (AddHeader_nodup hc l hnd)

/-- The registry after adding a label: unchanged when the label is registered,
the label appended otherwise. -/
theorem AddHeader_header (hc : HeaderContext) (label : String) :
    (hc.AddHeader label).header
      = if label ∈ hc.header then hc.header else hc.header ++ [label] := by
  unfold HeaderContext.AddHeader
  split_ifs <;> rfl

/-- Adding labels one after the other to the empty registry leaves the labels in
the order of their first occurrence, each once. -/
theorem foldl_AddHeader_first_occurrences (labels : List String) :
    (labels.foldl HeaderContext.AddHeader { header := [] }).header
      = (labels.reverse.dedup).reverse := by
  induction labels using List.reverseRecOn with
  | nil => rfl
  | append_singleton ls x ih =>
    rw [List.foldl_append, List.foldl_cons, List.foldl_nil, List.reverse_append,
      List.reverse_singleton, List.singleton_append, AddHeader_header, ih]
    by_cases hx : x ∈ ls.reverse
    · have hx2 : x ∈ (ls.reverse.dedup).reverse := by
        rw [List.mem_reverse, List.mem_dedup]; exact hx
      rw [if_pos hx2, List.dedup_cons_of_mem hx]
    · have hx2 : x ∉ (ls.reverse.dedup).reverse := by
        rw [List.mem_reverse, List.mem_dedup]; exact hx
      rw [if_neg hx2, List.dedup_cons_of_not_mem hx, List.reverse_cons]

/-- C11: calling the accessors ID, CreatedSince, CreatedBy, Size and Comment, in
the order of the default preset template, on one adapter with an empty header
registry leaves the full header "IMAGE", "CREATED SINCE", "CREATED BY", "SIZE",
"COMMENT", in that order, joined by single tabs. -/
theorem FullHeader_default_template (now : Time) (humanSize : Int → Nat → String)
    (trunc : Bool) (h : HistoryResponseItem) :
    (historyContext.Comment
        (historyContext.Size humanSize
          (historyContext.CreatedBy
            (historyContext.CreatedSince now
              (historyContext.ID { header := [], trunc := trunc, h := h }).2).2).2).2).2.FullHeader
      = "IMAGE\tCREATED SINCE\tCREATED BY\tSIZE\tCOMMENT"
    ∧ "IMAGE\tCREATED SINCE\tCREATED BY\tSIZE\tCOMMENT"
        = "\t".intercalate ["IMAGE", "CREATED SINCE", "CREATED BY", "SIZE", "COMMENT"] := by
  refine ⟨?_, by decide⟩
  have hcall := callAll_header now humanSize
    [Accessor.ID, Accessor.CreatedSince, Accessor.CreatedBy, Accessor.Size, Accessor.Comment]
    { header := [], trunc := trunc, h := h }
  have hfull : (historyContext.Comment
        (historyContext.Size humanSize
          (historyContext.CreatedBy
            (historyContext.CreatedSince now
              (historyContext.ID { header := [], trunc := trunc, h := h }).2).2).2).2).2.toHeaderContext
      = (List.map Accessor.header
          [Accessor.ID, Accessor.CreatedSince, Accessor.CreatedBy, Accessor.Size,
            Accessor.Comment]).foldl HeaderContext.AddHeader { header := [] } := hcall
  rw [hfull]
  decide

/-- The full header of a registry that holds one label is that label. -/
theorem FullHeader_AddHeader_empty (label : String) :
    (HeaderContext.AddHeader { header := [] } label).FullHeader = label := by
  simp [HeaderContext.AddHeader, HeaderContext.FullHeader, String.intercalate,
    String.intercalate.go]

/-- C12: one call of an accessor on an adapter whose header registry is empty
leaves the full header equal to the label of that accessor: `historyIDHeader` for
ID, `createdSinceHeader` for CreatedSince, `createdByHeader` for CreatedBy,
`sizeHeader` for Size and `commentHeader` for Comment, for every record, empty
or not, and every value of `trunc`. -/
theorem accessor_registers_own_label (now : Time) (humanSize : Int → Nat → String)
    (trunc : Bool) (h : HistoryResponseItem) :
    (historyContext.ID { header := [], trunc := trunc, h := h }).2.FullHeader
      = historyIDHeader
    ∧ (historyContext.CreatedSince now { header := [], trunc := trunc, h := h }).2.FullHeader
      = createdSinceHeader
    ∧ (historyContext.CreatedBy { header := [], trunc := trunc, h := h }).2.FullHeader
      = createdByHeader
    ∧ (historyContext.Size humanSize { header := [], trunc := trunc, h := h }).2.FullHeader
      = sizeHeader
    ∧ (historyContext.Comment { header := [], trunc := trunc, h := h }).2.FullHeader
      = commentHeader := by
  refine ⟨?_, ?_, ?_, ?_, ?_⟩
  · have e := Accessor.call_snd now humanSize Accessor.ID
      { header := [], trunc := trunc, h := h }
    have e2 : (historyContext.ID { header := [], trunc := trunc, h := h }).2
        = historyContext.AddHeader { header := [], trunc := trunc, h := h } historyIDHeader := e
    rw [e2]
    exact FullHeader_AddHeader_empty historyIDHeader
  · exact FullHeader_AddHeader_empty createdSinceHeader
  · exact FullHeader_AddHeader_empty createdByHeader
  · exact FullHeader_AddHeader_empty sizeHeader
  · exact FullHeader_AddHeader_empty commentHeader

/-- C13: after any sequence of accessor calls on one adapter that started with an
empty header registry, the registry holds no label twice and holds the labels of
the calls in the order in which each was first called; and on any adapter, a call
of an accessor whose label is registered leaves the adapter, and so the registry,
as it is, as a second call of ID does. -/
theorem registry_first_call_order (now : Time) (humanSize : Int → Nat → String)
    (calls : List Accessor) (trunc : Bool) (h : HistoryResponseItem) :
    (callAll now humanSize calls { header := [], trunc := trunc, h := h }).header.Nodup
    ∧ (callAll now humanSize calls { header := [], trunc := trunc, h := h }).header
        = ((calls.map Accessor.header).reverse.dedup).reverse
    ∧ (∀ (a : Accessor) (c : historyContext), a.header ∈ c.header →
        (a.call now humanSize c).2 = c)
    ∧ (∀ c : historyContext, (historyContext.ID (historyContext.ID c).2).2.header
        = (historyContext.ID c).2.header) := by
  have hreg := callAll_header now humanSize calls { header := [], trunc := trunc, h := h }
  have hreg2 : (callAll now humanSize calls { header := [], trunc := trunc, h := h }).header
      = ((calls.map Accessor.header).foldl HeaderContext.AddHeader { header := [] }).header :=
    congrArg HeaderContext.header hreg
  have hsame : ∀ (a : Accessor) (c : historyContext), a.header ∈ c.header →
      (a.call now humanSize c).2 = c := by
    intro a c hmem
    rw [Accessor.call_snd]
    simp [historyContext.AddHeader, HeaderContext.AddHeader, hmem]
  refine ⟨?_, ?_, hsame, ?_⟩
  · rw [hreg2]
    exact foldl_AddHeader_nodup _ _ List.nodup_nil
  · rw [hreg2]
    exact foldl_AddHeader_first_occurrences _
  · intro c
    have e1 : (historyContext.ID c).2 = c.AddHeader historyIDHeader :=
      Accessor.call_snd now humanSize Accessor.ID c
    have hmem : Accessor.ID.header ∈ (historyContext.ID c).2.header := by
      rw [e1]
      show historyIDHeader ∈ (c.toHeaderContext.AddHeader historyIDHeader).header
      rw [AddHeader_header]
      split_ifs with hin
      · exact hin
      · simp
    have e2 := hsame Accessor.ID (historyContext.ID c).2 hmem
    exact congrArg (fun x => x.header) e2

/-- Witness for C13 at the calls ID, Size, ID, Comment, Size on an empty adapter. -/
theorem registry_first_call_order_witness :
    (callAll (Time.Unix 0 0) (fun _ _ => "")
        [Accessor.ID, Accessor.Size, Accessor.ID, Accessor.Comment, Accessor.Size] {}).header
      = ["IMAGE", "SIZE", "COMMENT"] :=
  ((registry_first_call_order (Time.Unix 0 0) (fun _ _ => "")
      [Accessor.ID, Accessor.Size, Accessor.ID, Accessor.Comment, Accessor.Size]
      false {}).2.1).trans (by decide)

/-- A second as a numeral of nanoseconds. -/
theorem Second_eq : Second = (1000000000 : Int) := rfl

/-- The instant of a whole Unix second. -/
theorem Unix_seconds (sec : Int) :
    Time.Unix sec 0 = { sec := int64 (sec + unixToInternal), nsec := 0 } := by
  unfold Time.Unix
  rw [if_neg (by decide)]

/-- The duration from a creation time in Unix seconds to the instant 604800
seconds later is 7 days: the wrapped sums of the two instants differ by 604800
whatever the creation time. -/
theorem Sub_Unix_seven_days (created : Int) :
    Time.Sub (Time.Unix (created + 604800) 0) (Time.Unix (int64 created) 0)
      = 604800 * Second := by
  have hsec : int64 (int64 (created + 604800 + unixToInternal)
      - int64 (int64 created + unixToInternal)) = 604800 := by
    unfold int64 unixToInternal
    omega
  have hback : int64 (int64 (int64 created + unixToInternal) + 604800)
      = int64 (created + 604800 + unixToInternal) := by
    unfold int64 unixToInternal
    omega
  have hd : int64 (int64 (604800 * Second) + (0 - 0)) = 604800000000000 := by decide
  have hq : Int.tdiv 604800000000000 1000000000 = 604800 := by decide
  have hr : (0 : Int) + Int.tmod 604800000000000 1000000000 = 0 := by decide
  have hadd : Time.Add { sec := int64 (int64 created + unixToInternal), nsec := 0 }
      604800000000000
      = { sec := int64 (created + 604800 + unixToInternal), nsec := 0 } := by
    unfold Time.Add
    dsimp only
    rw [hq, hr, hback, if_neg (by decide), if_neg (by decide)]
  have heq : Time.Equal { sec := int64 (created + 604800 + unixToInternal), nsec := 0 }
      { sec := int64 (created + 604800 + unixToInternal), nsec := 0 } = true := by
    simp [Time.Equal]
  rw [Unix_seconds, Unix_seconds]
  unfold Time.Sub
  dsimp only
  rw [hsec, hd, hadd, heq, if_pos rfl]
  decide

/-- The whole seconds of a duration of at least a minute are at least 60. -/
theorem seconds_of_minute_le (d : Duration) (hd : 60 * Second ≤ d) :
    60 ≤ Int.tdiv d Second := by
  rw [Second_eq] at hd ⊢
  have hd2 : (60000000000 : Int) ≤ d := hd
  have h0 : (0 : Int) ≤ d := by omega
  rw [Int.tdiv_eq_ediv h0 (by decide)]
  omega

/-- A duration of at least a minute is humanized in minutes, hours, days, weeks,
months or years. -/
theorem HumanDuration_coarse (d : Duration) (hd : 60 * Second ≤ d) :
    HumanDuration d = "About a minute"
    ∨ (∃ n : Int, HumanDuration d = toString n ++ " minutes")
    ∨ HumanDuration d = "About an hour"
    ∨ (∃ n : Int, HumanDuration d = toString n ++ " hours")
    ∨ (∃ n : Int, HumanDuration d = toString n ++ " days")
    ∨ (∃ n : Int, HumanDuration d = toString n ++ " weeks")
    ∨ (∃ n : Int, HumanDuration d = toString n ++ " months")
    ∨ (∃ n : Int, HumanDuration d = toString n ++ " years") := by
  have hs := seconds_of_minute_le d hd
  have h1 : ¬ (Int.tdiv d Second < 1) := by omega
  have h2 : ¬ (Int.tdiv d Second = 1) := by omega
  have h3 : ¬ (Int.tdiv d Second < 60) := by omega
  obtain ⟨r, hr⟩ : ∃ r, r = HumanDuration d := ⟨_, rfl⟩
  rw [← hr]
  unfold HumanDuration at hr
  dsimp only at hr
  rw [if_neg h1, if_neg h2, if_neg h3] at hr
  split_ifs at hr
  · exact Or.inl hr
  · exact Or.inr (Or.inl ⟨_, hr⟩)
  · exact Or.inr (Or.inr (Or.inl hr))
  · exact Or.inr (Or.inr (Or.inr (Or.inl ⟨_, hr⟩)))
  · exact Or.inr (Or.inr (Or.inr (Or.inr (Or.inl ⟨_, hr⟩))))
  · exact Or.inr (Or.inr (Or.inr (Or.inr (Or.inr (Or.inl ⟨_, hr⟩)))))
  · exact Or.inr (Or.inr (Or.inr (Or.inr (Or.inr (Or.inr (Or.inl ⟨_, hr⟩))))))
  · exact Or.inr (Or.inr (Or.inr (Or.inr (Or.inr (Or.inr (Or.inr ⟨_, hr⟩))))))

/-- The whole seconds of a duration below a minute are below 60. -/
theorem seconds_of_lt_minute (d : Duration) (hd : d < 60 * Second) :
    Int.tdiv d Second < 60 := by
  rw [Second_eq] at hd ⊢
  have hd2 : (60000000000 : Int) > d := hd
  by_cases h0 : (0 : Int) ≤ d
  · rw [Int.tdiv_eq_ediv h0 (by decide)]
    omega
  · have hneg : (0 : Int) ≤ -d := by omega
    have h1 := Int.tdiv_nonneg hneg (show (0 : Int) ≤ 1000000000 by decide)
    rw [Int.neg_tdiv] at h1
    omega

/-- A duration below a minute is humanized in seconds. -/
theorem HumanDuration_seconds (d : Duration) (hd : d < 60 * Second) :
    HumanDuration d = "Less than a second"
    ∨ HumanDuration d = "1 second"
    ∨ (∃ n : Int, HumanDuration d = toString n ++ " seconds") := by
  have hs := seconds_of_lt_minute d hd
  obtain ⟨r, hr⟩ : ∃ r, r = HumanDuration d := ⟨_, rfl⟩
  rw [← hr]
  unfold HumanDuration at hr
  dsimp only at hr
  by_cases h1 : Int.tdiv d Second < 1
  · rw [if_pos h1] at hr
    exact Or.inl hr
  · rw [if_neg h1] at hr
    by_cases h2 : Int.tdiv d Second = 1
    · rw [if_pos h2] at hr
      exact Or.inr (Or.inl hr)
    · rw [if_neg h2, if_pos hs] at hr
      exact Or.inr (Or.inr ⟨_, hr⟩)

/-- C14, as stated, fails: for a record created 30 seconds before the reading of
the clock the CreatedSince accessor returns the elapsed time in seconds. -/
theorem CreatedSince_thirty_seconds :
    (historyContext.CreatedSince (Time.Unix 1488000030 0)
        { trunc := false, h := { Created := 1488000000 } }).1 = "30 seconds" := by
  decide

/-- C14, amended: with the reading of the clock as a parameter, for every record
and every `now` exactly 7 days, 604800 seconds, after the creation timestamp of
the record, read as Unix seconds, the CreatedSince accessor returns "7 days"; for
every `now` it humanizes the duration from the creation time to `now`, rendering
an elapsed time of a minute or more in minutes, hours, days, weeks, months or
years, and a shorter one in seconds. -/
theorem CreatedSince_seven_days (hc : HeaderContext) (trunc : Bool) (h : HistoryResponseItem)
    (now : Time) (hnow : now = Time.Unix (h.Created + 604800) 0) :
    (historyContext.CreatedSince now { toHeaderContext := hc, trunc := trunc, h := h }).1
      = "7 days"
    ∧ (∀ t : Time,
        (historyContext.CreatedSince t { toHeaderContext := hc, trunc := trunc, h := h }).1
          = HumanDuration (Time.Sub t (Time.Unix (int64 h.Created) 0)))
    ∧ (∀ t : Time, 60 * Second ≤ Time.Sub t (Time.Unix (int64 h.Created) 0) →
        ∃ (n : Int) (unit : String),
          unit ∈ ["minutes", "hours", "days", "weeks", "months", "years"]
          ∧ ((historyContext.CreatedSince t
                { toHeaderContext := hc, trunc := trunc, h := h }).1 = toString n ++ " " ++ unit
            ∨ (historyContext.CreatedSince t
                { toHeaderContext := hc, trunc := trunc, h := h }).1 = "About a minute"
            ∨ (historyContext.CreatedSince t
                { toHeaderContext := hc, trunc := trunc, h := h }).1 = "About an hour"))
    ∧ (∀ t : Time, Time.Sub t (Time.Unix (int64 h.Created) 0) < 60 * Second →
        (historyContext.CreatedSince t
            { toHeaderContext := hc, trunc := trunc, h := h }).1 = "Less than a second"
        ∨ (historyContext.CreatedSince t
            { toHeaderContext := hc, trunc := trunc, h := h }).1 = "1 second"
        ∨ ∃ n : Int, (historyContext.CreatedSince t
            { toHeaderContext := hc, trunc := trunc, h := h }).1 = toString n ++ " seconds") := by
  have hval : ∀ t : Time,
      (historyContext.CreatedSince t { toHeaderContext := hc, trunc := trunc, h := h }).1
        = HumanDuration (Time.Sub t (Time.Unix (int64 h.Created) 0)) := fun _ => rfl
  refine ⟨?_, hval, ?_, ?_⟩
  · rw [hval, hnow, Sub_Unix_seven_days h.Created]
    decide
  · intro t ht
    rw [hval]
    rcases HumanDuration_coarse _ ht with e | ⟨n, e⟩ | e | ⟨n, e⟩ | ⟨n, e⟩ | ⟨n, e⟩ | ⟨n, e⟩ | ⟨n, e⟩
    · exact ⟨0, "minutes", by simp, Or.inr (Or.inl e)⟩
    · exact ⟨n, "minutes", by simp, Or.inl (by rw [e, String.append_assoc]; rfl)⟩
    · exact ⟨0, "hours", by simp, Or.inr (Or.inr e)⟩
    · exact ⟨n, "hours", by simp, Or.inl (by rw [e, String.append_assoc]; rfl)⟩
    · exact ⟨n, "days", by simp, Or.inl (by rw [e, String.append_assoc]; rfl)⟩
    · exact ⟨n, "weeks", by simp, Or.inl (by rw [e, String.append_assoc]; rfl)⟩
    · exact ⟨n, "months", by simp, Or.inl (by rw [e, String.append_assoc]; rfl)⟩
    · exact ⟨n, "years", by simp, Or.inl (by rw [e, String.append_assoc]; rfl)⟩
  · intro t ht
    rw [hval]
    exact HumanDuration_seconds _ ht

/-- Witness for C14, amended, at a record created at Unix second 1488000000 and a
clock reading 604800 seconds later. -/
theorem CreatedSince_seven_days_witness :
    (historyContext.CreatedSince (Time.Unix 1488604800 0)
        { trunc := false, h := { Created := 1488000000 } }).1 = "7 days" :=
  (CreatedSince_seven_days {} false { Created := 1488000000 } (Time.Unix 1488604800 0)
    (by decide)).1

/-- C16: under truncation the CreatedBy accessor returns at most 45 characters;
when the tab-normalized provenance text, the value without truncation, has at
most 45 characters, the accessor returns that text unchanged, so that the values
with and without truncation agree. -/
theorem CreatedBy_trunc_at_most_45 (hc : HeaderContext) (h : HistoryResponseItem) :
    (historyContext.CreatedBy { toHeaderContext := hc, trunc := true, h := h }).1.length ≤ 45
    ∧ ((historyContext.CreatedBy
          { toHeaderContext := hc, trunc := false, h := h }).1.length ≤ 45 →
        (historyContext.CreatedBy { toHeaderContext := hc, trunc := true, h := h }).1
          = (historyContext.CreatedBy { toHeaderContext := hc, trunc := false, h := h }).1
        ∧ (historyContext.CreatedBy { toHeaderContext := hc, trunc := true, h := h }).1
          = Replace h.CreatedBy "\t" " " (-1)) := by
  rw [CreatedBy_trunc_eq, CreatedBy_full_eq]
  constructor
  · by_cases hlen : (Replace h.CreatedBy "\t" " " (-1)).length ≤ 45
    · rw [Ellipsis_short _ _ hlen]
      exact hlen
    · have hd := Ellipsis_long (Replace h.CreatedBy "\t" " " (-1)) 45 (by decide) (by omega)
      show (Ellipsis (Replace h.CreatedBy "\t" " " (-1)) 45).data.length ≤ 45
      rw [hd, List.length_append, List.length_take]
      have : min (45 - 3) (Replace h.CreatedBy "\t" " " (-1)).data.length ≤ 42 :=
        Nat.min_le_left _ _
      simp only [List.length_cons, List.length_nil]
      omega
  · intro hlen
    exact ⟨Ellipsis_short _ _ hlen, Ellipsis_short _ _ hlen⟩

/-- A truncated identifier is the first `shortLen` bytes of what is left of the
identifier after some number of its bytes. -/
theorem TruncateID_take_drop (id : ByteString) :
    ∃ k : Nat, TruncateID id = (id.drop k).take shortLen := by
  unfold TruncateID
  cases hix : IndexRune id (Char.toUInt8 ':') with
  | none => exact ⟨0, by simp only [cut_eq_take, List.drop_zero]⟩
  | some i => exact ⟨i + 1, by simp only [cut_eq_take]⟩

/-- C17: under truncation the ID accessor returns the part of the stored
identifier after its first ':' (the whole identifier when it has no ':'), cut to
its first 12 bytes when longer: the result is at most 12 bytes long, is a
contiguous part of the stored identifier, and is the stored identifier itself when
that has no ':' and at most 12 bytes. -/
theorem ID_trunc_after_colon (hc : HeaderContext) (h : HistoryResponseItem) :
    (∀ pre rest : ByteString, h.ID = pre ++ Char.toUInt8 ':' :: rest →
        Char.toUInt8 ':' ∉ pre →
        (historyContext.ID { toHeaderContext := hc, trunc := true, h := h }).1
          = if rest.length > 12 then rest.take 12 else rest)
    ∧ (Char.toUInt8 ':' ∉ h.ID →
        (historyContext.ID { toHeaderContext := hc, trunc := true, h := h }).1
          = if h.ID.length > 12 then h.ID.take 12 else h.ID)
    ∧ (historyContext.ID { toHeaderContext := hc, trunc := true, h := h }).1.length ≤ 12
    ∧ (historyContext.ID { toHeaderContext := hc, trunc := true, h := h }).1 <:+: h.ID
    ∧ (Char.toUInt8 ':' ∉ h.ID → h.ID.length ≤ 12 →
        (historyContext.ID { toHeaderContext := hc, trunc := true, h := h }).1 = h.ID) := by
  rw [ID_trunc_eq]
  refine ⟨?_, ?_, TruncateID_length_le h.ID, ?_, ?_⟩
  · intro pre rest hid hpre
    rw [TruncateID_colon h.ID pre rest hid hpre]
    exact (cut_eq_take 12 rest).symm
  · intro hid
    rw [TruncateID_no_colon h.ID hid]
    exact (cut_eq_take 12 h.ID).symm
  · obtain ⟨k, hk⟩ := TruncateID_take_drop h.ID
    rw [hk]
    exact (List.take_prefix _ _).isInfix.trans (List.drop_suffix _ _).isInfix
  · intro hid hlen
    rw [TruncateID_no_colon h.ID hid]
    exact List.take_of_length_le hlen

/-- Witness for C17 at identifiers outside ASCII and with a digest prefix: seven
letters é, 14 bytes, are cut to their first 12 bytes, six letters; twelve letters
é, 24 bytes, likewise; and of "sha256:" followed by sixteen hexadecimal digits the
first twelve digits are kept. -/
theorem ID_trunc_after_colon_witness :
    (historyContext.ID { trunc := true, h := { ID := "ééééééé" } }).1 = utf8 "éééééé"
    ∧ (historyContext.ID { trunc := true, h := { ID := "éééééééééééé" } }).1.length = 12
    ∧ (historyContext.ID
        { trunc := true, h := { ID := "sha256:0123456789abcdef" } }).1 = utf8 "0123456789ab" :=
  ⟨((ID_trunc_after_colon {} { ID := "ééééééé" }).2.1 (by decide)).trans (by decide),
   (congrArg List.length
      ((ID_trunc_after_colon {} { ID := "éééééééééééé" }).2.1 (by decide))).trans (by decide),
   ((ID_trunc_after_colon {} { ID := "sha256:0123456789abcdef" }).1
      (utf8 "sha256") (utf8 "0123456789abcdef") (by decide) (by decide)).trans (by decide)⟩

/-- With `a = den * q + r` and `r < den`: a quotient `a / den` strictly between
`m - 1/2` and `m + 1/2` is no tie, and `m` is `q` when the remainder is below
half and `q + 1` when it is above. -/
theorem round_cases (den q r m : Nat) (hr : r < den)
    (hlo : 2 * m * den < 2 * (den * q + r) + den)
    (hhi : 2 * (den * q + r) < (2 * m + 1) * den) :
    (2 * r < den → q = m) ∧ (2 * r > den → q + 1 = m) ∧ 2 * r ≠ den := by
  have hqm : q ≤ m := by
    by_contra hcon
    have h1 : m + 1 ≤ q := by omega
    have h2 : den * (m + 1) ≤ den * q := Nat.mul_le_mul_left den h1
    nlinarith
  have hmq : m ≤ q + 1 := by
    by_contra hcon
    have h1 : q + 2 ≤ m := by omega
    have h2 : den * (q + 2) ≤ den * m := Nat.mul_le_mul_left den h1
    nlinarith
  refine ⟨?_, ?_, ?_⟩
  · intro hA
    by_contra hcon
    have h1 : m = q + 1 := by omega
    subst h1
    nlinarith
  · intro hB
    by_contra hcon
    have h1 : m = q := by omega
    subst h1
    nlinarith
  · intro hT
    rcases Nat.lt_or_ge q m with h1 | h1
    · have h2 : m = q + 1 := by omega
      subst h2
      nlinarith
    · have h2 : m = q := by omega
      subst h2
      nlinarith

/-- A quotient strictly between `m - 1/2` and `m + 1/2` rounds to `m`. -/
theorem roundHalfEven_eq (a den m : Nat) (hlo : 2 * m * den < 2 * a + den)
    (hhi : 2 * a < (2 * m + 1) * den) : roundHalfEven a den = m := by
  have hden : 0 < den := by
    rcases Nat.eq_zero_or_pos den with h0 | h0
    · subst h0
      simp at hhi
    · exact h0
  have hr : a % den < den := Nat.mod_lt a hden
  have hdm : den * (a / den) + a % den = a := Nat.div_add_mod a den
  have hc := round_cases den (a / den) (a % den) m hr (by rw [hdm]; exact hlo)
    (by rw [hdm]; exact hhi)
  unfold roundHalfEven
  dsimp only
  by_cases hA : 2 * (a % den) < den
  · rw [if_pos hA]
    exact hc.1 hA
  · rw [if_neg hA]
    by_cases hB : 2 * (a % den) > den
    · rw [if_pos hB]
      exact hc.2.1 hB
    · exact absurd (by omega) hc.2.2

/-- A whole number from 100 to 999 has three decimal digits. -/
theorem toDigits_length_three :
    ∀ n, n < 1000 → 100 ≤ n → (Nat.toDigits 10 n).length = 3 := by
  set_option maxRecDepth 100000 in decide

/-- Three significant digits with the decimal point after them are written by
`%.3g` as the whole number they spell. -/
theorem formatDigits_three :
    ∀ m, m < 1000 → 100 ≤ m →
      formatDigits false (trimZeros (Nat.toDigits 10 m)) 3 3 = toString m := by
  set_option maxRecDepth 100000 in decide

/-- A number of at least 100 that rounds to a whole number `m` below 1000 is
written by `%.3g` as `m`. -/
theorem fmtG_three_digits (a den m : Nat) (hden : 0 < den) (h100 : 100 * den ≤ a)
    (hlo : 2 * m * den < 2 * a + den) (hhi : 2 * a < (2 * m + 1) * den) (hm : m ≤ 999) :
    fmtG 3 (a : Int) den = toString m := by
  have hm100 : 100 ≤ m := by
    by_contra hcon
    have h1 : 2 * m + 1 ≤ 199 := by omega
    have h2 : (2 * m + 1) * den ≤ 199 * den := Nat.mul_le_mul_right den h1
    omega
  have hI100 : 100 ≤ a / den := (Nat.le_div_iff_mul_le hden).mpr h100
  have hI1000 : a / den < 1000 := by
    rw [Nat.div_lt_iff_lt_mul hden]
    have h2 : (2 * m + 1) * den ≤ 1999 * den := Nat.mul_le_mul_right den (by omega)
    omega
  have hge : a ≥ den := by omega
  have ha0 : ¬ ((a : Int) = 0) := by omega
  have hneg : decide ((a : Int) < 0) = false := by
    rw [decide_eq_false_iff_not]
    omega
  have hdigs : roundDigits 3 a den = (trimZeros (Nat.toDigits 10 m), 3) := by
    unfold roundDigits
    dsimp only
    rw [if_pos hge, toDigits_length_three _ hI1000 hI100]
    have hsh : ((3 : Nat) : Int) - ((3 : Nat) : Int) = 0 := by decide
    rw [hsh, if_pos (le_refl _)]
    have hx : a * 10 ^ (0 : Int).toNat = a := by simp
    rw [hx, roundHalfEven_eq a den m hlo hhi, if_neg (by omega)]
    rfl
  unfold fmtG
  dsimp only
  rw [if_neg (show ¬ ((3 : Nat) = 0) by decide), if_neg ha0, Int.natAbs_ofNat, hdigs, hneg]
  exact formatDigits_three m (by omega) hm100

/-- The loop of `getSizeAndUnit` stops at the unit `i` when the size is at least
`1000 ^ i` and below `1000 ^ (i + 1)`. -/
theorem getSizeAndUnit_loop_eq (num : Int) (i : Nat) (hi : i ≤ 8)
    (hlo : ((1000 ^ i : Nat) : Int) ≤ num) (hhi : num < ((1000 ^ (i + 1) : Nat) : Int)) :
    ∀ fuel j : Nat, j + fuel = 8 → j ≤ i →
      getSizeAndUnit.loop num 1000 fuel (1000 ^ j) j = (1000 ^ i, i) := by
  intro fuel
  induction fuel with
  | zero =>
    intro j hj hji
    have hj8 : j = i := by omega
    subst hj8
    rfl
  | succ fuel ih =>
    intro j hj hji
    unfold getSizeAndUnit.loop
    have hpow : ((1000 : Nat) : Int) * ((1000 ^ j : Nat) : Int)
        = ((1000 ^ (j + 1) : Nat) : Int) := by
      push_cast
      ring
    by_cases hjeq : j = i
    · subst hjeq
      rw [hpow, if_neg (by omega)]
    · have hlt : j + 1 ≤ i := by omega
      have hle : (1000 : Nat) ^ (j + 1) ≤ 1000 ^ i :=
        Nat.pow_le_pow_right (by decide) hlt
      have hcond : num ≥ ((1000 : Nat) : Int) * ((1000 ^ j : Nat) : Int) := by
        rw [hpow]
        have : ((1000 ^ (j + 1) : Nat) : Int) ≤ ((1000 ^ i : Nat) : Int) := by
          exact_mod_cast hle
        omega
      rw [if_pos hcond]
      have hden : 1000 ^ j * 1000 = 1000 ^ (j + 1) := by rw [pow_succ]
      rw [hden]
      exact ih (j + 1) (by omega) hlt

/-- The unit chosen for a size of at least `1000 ^ i` and below `1000 ^ (i + 1)`
is the one of index `i`, and the size is divided by `1000 ^ i`. -/
theorem getSizeAndUnit_eq (num : Int) (i : Nat) (hi : i ≤ 8)
    (hlo : ((1000 ^ i : Nat) : Int) ≤ num) (hhi : num < ((1000 ^ (i + 1) : Nat) : Int)) :
    getSizeAndUnit num 1000 decimapAbbrs = (1000 ^ i, decimapAbbrs.getD i "") := by
  have hloop := getSizeAndUnit_loop_eq num i hi hlo hhi 8 0 rfl (Nat.zero_le i)
  have hlen : decimapAbbrs.length - 1 = 8 := rfl
  unfold getSizeAndUnit
  dsimp only
  rw [hlen]
  have h1 : (1 : Nat) = 1000 ^ 0 := rfl
  rw [h1, hloop]

/-- A size of at least 100 units of index `i` that rounds to a whole number `m`
of units below 1000 is humanized at precision 3 as `m` followed by the unit. -/
theorem HumanSizeWithPrecision_three_digits (a i m : Nat) (hi : i ≤ 8) (hm : m ≤ 999)
    (h100 : 100 * 1000 ^ i ≤ a) (hlo : 2 * m * 1000 ^ i < 2 * a + 1000 ^ i)
    (hhi : 2 * a < (2 * m + 1) * 1000 ^ i) :
    HumanSizeWithPrecision (a : Int) 3 = toString m ++ decimapAbbrs.getD i "" := by
  have hpos : 0 < 1000 ^ i := pow_pos (by decide) i
  have hge : 1000 ^ i ≤ a := by omega
  have hlt : a < 1000 ^ (i + 1) := by
    have h2 : (2 * m + 1) * 1000 ^ i ≤ 1999 * 1000 ^ i :=
      Nat.mul_le_mul_right _ (by omega)
    rw [pow_succ]
    omega
  have hunit := getSizeAndUnit_eq (a : Int) i hi (by exact_mod_cast hge)
    (by exact_mod_cast hlt)
  unfold HumanSizeWithPrecision
  dsimp only
  rw [hunit]
  dsimp only
  rw [fmtG_three_digits a (1000 ^ i) m hpos h100 hlo hhi hm]

end Formatter
